import Mathlib

/-!
Verification of `slow.c`, a rate-limited stdin-to-stdout copier.

The program is embedded shallowly: the observable behaviour of one
invocation is a trace of stdout events (byte writes and `usleep`
suspensions), the text written to stderr, and the process exit code.
Bytes are modelled as `Nat` values (0–255 in practice; the embedding
puts no transformation on them, exactly like the C code), and the C
`int` arithmetic on rates is modelled with `Int` (the values involved
stay far below 2^31, so no wrap-around occurs in the source either).
-/

namespace Slow

/-- The character class skipped by C `atoi` before the number:
space, tab, newline, vertical tab, form feed, carriage return. -/
def isSpaceChar (c : Char) : Bool :=
  c = ' ' || c = '\t' || c = '\n' || c = Char.ofNat 11 || c = Char.ofNat 12 || c = '\r'

/-- Decimal digit test, as in C `isdigit` for the ASCII range. -/
def isDigitChar (c : Char) : Bool := '0' ≤ c && c ≤ '9'

/-- Value of the maximal leading run of decimal digits (0 when there is none). -/
def digitsValue (l : List Char) : Nat :=
  (l.takeWhile isDigitChar).foldl (fun a c => 10 * a + (c.toNat - '0'.toNat)) 0

/-- C `atoi` on a character list: skip whitespace, optional sign, then
digits; any string with no leading digits after the sign yields 0. -/
def atoiChars (l : List Char) : Int :=
  match l.dropWhile isSpaceChar with
  | '-' :: rest => - (digitsValue rest : Int)
  | '+' :: rest => (digitsValue rest : Int)
  | rest => (digitsValue rest : Int)

/-- C `atoi` on a string argument (slow.c line 91: `bps = atoi(argv[1])`). -/
def atoi (s : String) : Int := atoiChars s.data

/-- Rate obtained from the single positional argument:
`bps = atoi(argv[1]); if (bps < 10) bps = 10;` (slow.c lines 91–93). -/
def parseBps (s : String) : Int :=
  let bps := atoi s
  if bps < 10 then 10 else bps

/-- The rate in effect after argument handling: default 960 with no
positional argument, otherwise the parsed-and-clamped first argument
(slow.c lines 84, 90–94). `args` is `argv[1..]`. -/
def effectiveBps (args : List String) : Int :=
  match args with
  | [] => 960
  | a :: _ => parseBps a

/-- Per-byte delay in microseconds: `delay = 1000 * 1000 / bps;`
(slow.c line 96). C `/` on `int` truncates toward zero, i.e. `Int.tdiv`. -/
def computeDelay (bps : Int) : Int := Int.tdiv (1000 * 1000) bps

/-- One observable stdout-side event: a byte written, or a `usleep`
suspension for the given number of microseconds. -/
inductive Event where
  | out (b : Nat)
  | sleep (us : Int)
  deriving DecidableEq

/-- The copy loop (slow.c lines 104–108): for each input byte, write it,
then suspend for `delay` microseconds when `delay > 4`. -/
def copyLoop (delay : Int) : List Nat → List Event
  | [] => []
  | b :: rest =>
      Event.out b :: (if 4 < delay then [Event.sleep delay] else []) ++ copyLoop delay rest

/-- The ESC byte 0x1B. -/
def ESC : Nat := 0x1b

/-- Leading control sequence ESC `[H` ESC `[J` (slow.c line 101). -/
def leadingSeq : List Nat := [ESC, 0x5b, 0x48, ESC, 0x5b, 0x4a]

/-- Trailing control sequence ESC `[24;0H` (slow.c line 111). -/
def trailingSeq : List Nat := [ESC, 0x5b, 0x32, 0x34, 0x3b, 0x30, 0x48]

/-- The usage text printed to stderr (slow.c line 76). -/
def usageMsg : String := "usage: slow [speed] < input.txt\n"

/-- Observable result of one invocation. -/
structure ProgResult where
  stdoutTrace : List Event
  stderrText : String
  exitCode : Nat
  deriving DecidableEq

/-- The whole program (slow.c `main`): `args` is `argv[1..]` (so
`argc = args.length + 1`) and `input` is the full stdin byte stream.
With more than one positional argument `usage()` prints to stderr and
exits with status 1 before anything reaches stdout; otherwise the
leading sequence, the paced copy of the input, and the trailing
sequence are written and the process returns 0. -/
def slowMain (args : List String) (input : List Nat) : ProgResult :=
  if 2 ≤ args.length then
    { stdoutTrace := [], stderrText := usageMsg, exitCode := 1 }
  else
    let delay := computeDelay (effectiveBps args)
    { stdoutTrace :=
        leadingSeq.map Event.out ++ copyLoop delay input ++ trailingSeq.map Event.out,
      stderrText := "",
      exitCode := 0 }

/-- The bytes a trace writes to stdout, in order, ignoring suspensions. -/
def outBytes (tr : List Event) : List Nat :=
  tr.filterMap fun e => match e with | .out b => some b | .sleep _ => none

/-- The bytes an invocation writes to stdout, in order. -/
def stdoutBytes (r : ProgResult) : List Nat := outBytes r.stdoutTrace

/-- Test for a byte-write event. -/
def isOut : Event → Bool
  | .out _ => true
  | .sleep _ => false

/-- Test for a suspension event. -/
def isSleep : Event → Bool
  | .sleep _ => true
  | .out _ => false

/-- Number of suspension events in a trace. -/
def sleepCount (tr : List Event) : Nat := tr.countP isSleep

/-- Total suspended time of a trace, in microseconds. -/
def sleepTotal : List Event → Int
  | [] => 0
  | .sleep d :: rest => d + sleepTotal rest
  | .out _ :: rest => sleepTotal rest

/-- Helper for `eachOutPreceded`: `seen` records whether a suspension
has occurred earlier in the trace; every byte-write must come after one. -/
def noUnprecededOut (seen : Bool) : List Event → Bool
  | [] => true
  | .out _ :: rest => seen && noUnprecededOut seen rest
  | .sleep _ :: rest => noUnprecededOut true rest

/-- Whether every byte written in the trace is preceded (anywhere
earlier in the trace) by a suspension. -/
def eachOutPreceded (tr : List Event) : Bool := noUnprecededOut false tr

/-- Whether every byte written in the trace is immediately followed by
a suspension of exactly `d` microseconds. -/
def eachOutFollowedBySleep (d : Int) : List Event → Bool
  | [] => true
  | .out _ :: .sleep d2 :: rest => d2 == d && eachOutFollowedBySleep d rest
  | .out _ :: _ => false
  | .sleep _ :: rest => eachOutFollowedBySleep d rest

/-! ### Helper lemmas -/

theorem copyLoop_of_le {delay : Int} (h : delay ≤ 4) (input : List Nat) :
    copyLoop delay input = input.map Event.out := by
  induction input with
  | nil => rfl
  | cons b rest ih => simp [copyLoop, not_lt.mpr h, ih]

theorem copyLoop_of_gt {delay : Int} (h : 4 < delay) (input : List Nat) :
    copyLoop delay input = input.flatMap fun b => [Event.out b, Event.sleep delay] := by
  induction input with
  | nil => rfl
  | cons b rest ih => simp [copyLoop, h, ih]

theorem outBytes_append (l1 l2 : List Event) :
    outBytes (l1 ++ l2) = outBytes l1 ++ outBytes l2 := by
  simp [outBytes]

theorem outBytes_map_out (l : List Nat) : outBytes (l.map Event.out) = l := by
  induction l with
  | nil => rfl
  | cons b rest ih => simpa [outBytes, List.filterMap_cons] using ih

theorem outBytes_copyLoop (delay : Int) (input : List Nat) :
    outBytes (copyLoop delay input) = input := by
  induction input with
  | nil => rfl
  | cons b rest ih =>
    by_cases h4 : 4 < delay <;>
      simpa [copyLoop, h4, outBytes, List.filterMap_cons] using ih

theorem slowMain_accepted (args : List String) (input : List Nat) (h : args.length ≤ 1) :
    slowMain args input =
      { stdoutTrace := leadingSeq.map Event.out ++
          copyLoop (computeDelay (effectiveBps args)) input ++ trailingSeq.map Event.out,
        stderrText := "", exitCode := 0 } := by
  unfold slowMain
  rw [if_neg (by omega)]

theorem effectiveBps_ge_ten (args : List String) : 10 ≤ effectiveBps args := by
  match args with
  | [] => decide
  | a :: rest =>
    show 10 ≤ parseBps a
    have hpb : parseBps a = if atoi a < 10 then 10 else atoi a := rfl
    rw [hpb]
    split <;> omega

theorem computeDelay_eq_cast (b : Int) (h : 0 ≤ b) :
    computeDelay b = ((1000000 / b.toNat : Nat) : Int) := by
  conv_lhs => rw [← Int.toNat_of_nonneg h]
  rfl

theorem computeDelay_nonneg (b : Int) (h : 10 ≤ b) : 0 ≤ computeDelay b := by
  rw [computeDelay_eq_cast b (by omega)]
  exact Int.natCast_nonneg _

theorem computeDelay_le (b : Int) (h : 10 ≤ b) : computeDelay b ≤ 100000 := by
  rw [computeDelay_eq_cast b (by omega)]
  have hn : 10 ≤ b.toNat := by omega
  have h2 : 1000000 / b.toNat ≤ 1000000 / 10 := Nat.div_le_div_left hn (by omega)
  have h3 : 1000000 / b.toNat ≤ 100000 := le_trans h2 (by norm_num)
  exact_mod_cast h3

theorem computeDelay_zero_of_gt (b : Int) (h : 1000000 < b) : computeDelay b = 0 := by
  rw [computeDelay_eq_cast b (by omega)]
  have hn : 1000000 < b.toNat := by omega
  rw [Nat.div_eq_of_lt hn]
  rfl

theorem computeDelay_mul_le (b : Int) (h : 10 ≤ b) : computeDelay b * b ≤ 1000000 := by
  obtain ⟨n, rfl⟩ : ∃ n : Nat, b = (n : Int) := ⟨b.toNat, (Int.toNat_of_nonneg (by omega)).symm⟩
  rw [computeDelay_eq_cast (n : Int) (Int.natCast_nonneg n), Int.toNat_natCast]
  have hd := Nat.div_mul_le_self 1000000 n
  exact_mod_cast hd

theorem lt_computeDelay_succ_mul (b : Int) (h : 10 ≤ b) :
    1000000 < (computeDelay b + 1) * b := by
  obtain ⟨n, rfl⟩ : ∃ n : Nat, b = (n : Int) := ⟨b.toNat, (Int.toNat_of_nonneg (by omega)).symm⟩
  rw [computeDelay_eq_cast (n : Int) (Int.natCast_nonneg n), Int.toNat_natCast]
  have hn : 0 < n := by omega
  have hd := (Nat.div_lt_iff_lt_mul hn).mp (Nat.lt_succ_self (1000000 / n))
  exact_mod_cast hd

theorem sleepCount_copyLoop {delay : Int} (h : 4 < delay) (input : List Nat) :
    sleepCount (copyLoop delay input) = input.length := by
  rw [copyLoop_of_gt h]
  induction input with
  | nil => rfl
  | cons b rest ih =>
    simp only [List.flatMap_cons, sleepCount, List.countP_append] at ih ⊢
    simp [List.countP_cons, isSleep, ih]
    omega

theorem sleepTotal_append (l1 l2 : List Event) :
    sleepTotal (l1 ++ l2) = sleepTotal l1 + sleepTotal l2 := by
  induction l1 with
  | nil => simp [sleepTotal]
  | cons e rest ih =>
    cases e with
    | out b => simpa [sleepTotal] using ih
    | sleep d => simp [sleepTotal, ih, add_assoc]

theorem sleepTotal_copyLoop {delay : Int} (h : 4 < delay) (input : List Nat) :
    sleepTotal (copyLoop delay input) = (input.length : Int) * delay := by
  rw [copyLoop_of_gt h]
  induction input with
  | nil => simp [sleepTotal]
  | cons b rest ih =>
    rw [List.flatMap_cons, sleepTotal_append, ih]
    show sleepTotal [Event.out b, Event.sleep delay] + _ = _
    simp [sleepTotal]
    ring

theorem flatMap_pair_getLast (delay : Int) (b : Nat) (rest : List Nat) :
    ((b :: rest).flatMap fun x => [Event.out x, Event.sleep delay]).getLast? =
      some (Event.sleep delay) := by
  induction rest generalizing b with
  | nil => rfl
  | cons c rest2 ih =>
    rw [List.flatMap_cons, List.getLast?_append, ih c]
    rfl

theorem eachOutFollowed_copyLoop {delay : Int} (h : 4 < delay) (input : List Nat) :
    eachOutFollowedBySleep delay (copyLoop delay input) = true := by
  rw [copyLoop_of_gt h]
  induction input with
  | nil => rfl
  | cons b rest ih =>
    rw [List.flatMap_cons]
    show eachOutFollowedBySleep delay
        (Event.out b :: Event.sleep delay ::
          rest.flatMap fun x => [Event.out x, Event.sleep delay]) = true
    simp only [eachOutFollowedBySleep, beq_self_eq_true, Bool.true_and]
    exact ih

/-! ### Claim theorems -/

/-- C1: For every input byte sequence (empty, NUL bytes and multi-byte runs
included) and every accepted invocation, the bytes written to stdout are
exactly the leading control sequence, followed by the input bytes unchanged
and in the order read, followed by the trailing control sequence, each
control sequence emitted exactly once regardless of input length. -/
theorem C1_stdout_framing (args : List String) (input : List Nat)
    (h : args.length ≤ 1) :
    stdoutBytes (slowMain args input) = leadingSeq ++ input ++ trailingSeq := by
  rw [slowMain_accepted args input h]
  show outBytes _ = _
  rw [outBytes_append, outBytes_append, outBytes_map_out, outBytes_map_out,
    outBytes_copyLoop, List.append_assoc]

/-- Witness for C1: concrete invocation with no arguments and input bytes
0 and 255. -/
theorem C1_stdout_framing_witness :
    ([] : List String).length ≤ 1 ∧
      stdoutBytes (slowMain [] [0, 255]) = leadingSeq ++ [0, 255] ++ trailingSeq :=
  ⟨by decide, C1_stdout_framing [] [0, 255] (by decide)⟩

/-- C2: Whenever the parsed rate is below 10 — including the 0 that atoi
produces on a non-numeric argument, and negative values — the effective rate
is exactly 10, and such an invocation is not an error: it exits with 0. -/
theorem C2_low_rate_clamped (a : String) (input : List Nat)
    (h : atoi a < 10) :
    effectiveBps [a] = 10 ∧ (slowMain [a] input).exitCode = 0 := by
  constructor
  · show parseBps a = 10
    have hpb : parseBps a = if atoi a < 10 then 10 else atoi a := rfl
    rw [hpb, if_pos h]
  · rw [slowMain_accepted [a] input (by simp)]

/-- Witness for C2: the non-numeric argument "abc" parses to 0 and is clamped
to rate 10 without an error exit. -/
theorem C2_low_rate_clamped_witness :
    atoi "abc" < 10 ∧
      (effectiveBps ["abc"] = 10 ∧ (slowMain ["abc"] [65]).exitCode = 0) :=
  ⟨by decide, C2_low_rate_clamped "abc" [65] (by decide)⟩

/-- C3: For every rate of at least 10 (every rate in effect after clamping,
the default 960 included) the computed delay is the truncating integer
division of 1000000 by the rate: it is nonnegative and is the unique integer
with delay * R ≤ 1000000 < (delay + 1) * R. -/
theorem C3_delay_truncating_div (b : Int) (h : 10 ≤ b) :
    0 ≤ computeDelay b ∧ computeDelay b * b ≤ 1000000 ∧
      1000000 < (computeDelay b + 1) * b :=
  ⟨computeDelay_nonneg b h, computeDelay_mul_le b h, lt_computeDelay_succ_mul b h⟩

/-- Witness for C3 at the default rate 960. -/
theorem C3_delay_truncating_div_witness :
    (10 : Int) ≤ 960 ∧
      (0 ≤ computeDelay 960 ∧ computeDelay 960 * 960 ≤ 1000000 ∧
        1000000 < (computeDelay 960 + 1) * 960) :=
  ⟨by decide, C3_delay_truncating_div 960 (by decide)⟩

/-- C4: With two or more positional arguments the program writes exactly the
usage string to stderr, exits with status 1, and writes nothing at all to
stdout — no control sequence and no input byte. -/
theorem C4_usage_error (args : List String) (input : List Nat)
    (h : 2 ≤ args.length) :
    (slowMain args input).stderrText = usageMsg ∧
      (slowMain args input).exitCode = 1 ∧
      (slowMain args input).stdoutTrace = [] := by
  unfold slowMain
  rw [if_pos h]
  exact ⟨rfl, rfl, rfl⟩

/-- Witness for C4: the two-argument invocation `slow 100 200`. -/
theorem C4_usage_error_witness :
    2 ≤ (["100", "200"] : List String).length ∧
      ((slowMain ["100", "200"] [65]).stderrText = usageMsg ∧
        (slowMain ["100", "200"] [65]).exitCode = 1 ∧
        (slowMain ["100", "200"] [65]).stdoutTrace = []) :=
  ⟨by decide, C4_usage_error ["100", "200"] [65] (by decide)⟩

/-- C5: In the copy loop each byte is written first, and a suspension of
exactly the computed delay follows if and only if the delay exceeds 4
microseconds: above 4µs the trace is each byte immediately followed by one
sleep of exactly `delay`; at 4µs or below it is the bytes alone, unpaced. -/
theorem C5_write_then_conditional_sleep (delay : Int) (input : List Nat) :
    (delay ≤ 4 → copyLoop delay input = input.map Event.out) ∧
    (4 < delay →
      copyLoop delay input = input.flatMap fun b => [Event.out b, Event.sleep delay]) :=
  ⟨fun h => copyLoop_of_le h input, fun h => copyLoop_of_gt h input⟩

/-- Witness for C5: delay 2 gives no suspensions, delay 100 gives one sleep
of 100µs after each byte. -/
theorem C5_write_then_conditional_sleep_witness :
    copyLoop 2 [65, 66] = ([65, 66] : List Nat).map Event.out ∧
      copyLoop 100 [65, 66] =
        ([65, 66] : List Nat).flatMap fun b => [Event.out b, Event.sleep 100] :=
  ⟨(C5_write_then_conditional_sleep 2 [65, 66]).1 (by decide),
    (C5_write_then_conditional_sleep 100 [65, 66]).2 (by decide)⟩

/-- C6 counterexample: with the default rate's delay of 1041µs (far above the
4µs floor) the first input byte is written with no suspension anywhere before
it in the copy-phase trace, so not every output byte is preceded in time by
the per-byte delay. -/
theorem C6_first_byte_unpreceded :
    4 < (1041 : Int) ∧ eachOutPreceded (copyLoop 1041 [65, 66]) = false := by
  decide

/-- C6 amended: every input byte appears on the output in the order read and,
when the delay exceeds the 4µs floor, every written byte is immediately
followed by a suspension of exactly the per-byte delay — so every output byte
after the first is preceded in time by that delay. -/
theorem C6_order_and_pacing (delay : Int) (input : List Nat) :
    outBytes (copyLoop delay input) = input ∧
    (4 < delay → eachOutFollowedBySleep delay (copyLoop delay input) = true) :=
  ⟨outBytes_copyLoop delay input, fun h => eachOutFollowed_copyLoop h input⟩

/-- Witness for C6 at delay 1041 and input bytes 10, 20. -/
theorem C6_order_and_pacing_witness :
    outBytes (copyLoop 1041 [10, 20]) = [10, 20] ∧
      eachOutFollowedBySleep 1041 (copyLoop 1041 [10, 20]) = true :=
  ⟨(C6_order_and_pacing 1041 [10, 20]).1,
    (C6_order_and_pacing 1041 [10, 20]).2 (by decide)⟩

/-- C7: On every accepted invocation the program exits with status 0 —
end-of-stream is normal termination, never an error — and its stdout trace
ends with the trailing control sequence, written after all the input bytes,
which in turn follow the leading sequence. -/
theorem C7_normal_termination (args : List String) (input : List Nat)
    (h : args.length ≤ 1) :
    (slowMain args input).exitCode = 0 ∧
      ∃ pre, (slowMain args input).stdoutTrace = pre ++ trailingSeq.map Event.out ∧
        outBytes pre = leadingSeq ++ input := by
  rw [slowMain_accepted args input h]
  refine ⟨rfl,
    leadingSeq.map Event.out ++ copyLoop (computeDelay (effectiveBps args)) input,
    ?_, ?_⟩
  · rfl
  · rw [outBytes_append, outBytes_map_out, outBytes_copyLoop]

/-- Witness for C7: empty input, no arguments. -/
theorem C7_normal_termination_witness :
    (slowMain [] []).exitCode = 0 ∧
      ∃ pre, (slowMain [] []).stdoutTrace = pre ++ trailingSeq.map Event.out ∧
        outBytes pre = leadingSeq ++ [] :=
  C7_normal_termination [] [] (by decide)

/-- C8: The rate is never zero or negative at the point the delay is
computed: for every argument list the effective rate is at least 10 (the
default is 960), so the division 1000000 / rate never divides by zero and
the delay is determined by the rate alone. -/
theorem C8_rate_positive (args : List String) :
    10 ≤ effectiveBps args ∧ effectiveBps args ≠ 0 := by
  have h := effectiveBps_ge_ten args
  exact ⟨h, by omega⟩

/-- C9: With a delay above the 4µs floor, a non-empty input of length L gives
exactly L suspensions — one immediately after each written byte, the final
byte included, so the copy-phase trace ends with a sleep — and the total
enforced pacing is L times the delay, not L - 1 times. -/
theorem C9_sleep_per_byte (delay : Int) (input : List Nat)
    (h : 4 < delay) (hne : input ≠ []) :
    sleepCount (copyLoop delay input) = input.length ∧
      sleepTotal (copyLoop delay input) = (input.length : Int) * delay ∧
      (copyLoop delay input).getLast? = some (Event.sleep delay) := by
  refine ⟨sleepCount_copyLoop h input, sleepTotal_copyLoop h input, ?_⟩
  match input, hne with
  | b :: rest, _ =>
    rw [copyLoop_of_gt h]
    exact flatMap_pair_getLast delay b rest

/-- Witness for C9: delay 100, two input bytes. -/
theorem C9_sleep_per_byte_witness :
    sleepCount (copyLoop 100 [65, 66]) = ([65, 66] : List Nat).length ∧
      sleepTotal (copyLoop 100 [65, 66]) = (([65, 66] : List Nat).length : Int) * 100 ∧
      (copyLoop 100 [65, 66]).getLast? = some (Event.sleep 100) :=
  C9_sleep_per_byte 100 [65, 66] (by decide) (by decide)

/-- C10: On every accepted invocation the computed delay lies between 0 and
100000 microseconds inclusive (the clamp to rate 10 bounds it above), and a
supplied rate parsing to more than 1000000 yields a delay of exactly 0 and
hence no pacing. -/
theorem C10_delay_bounds (args : List String) (a : String) :
    (0 ≤ computeDelay (effectiveBps args) ∧ computeDelay (effectiveBps args) ≤ 100000) ∧
      (1000000 < atoi a → computeDelay (effectiveBps [a]) = 0) := by
  constructor
  · have hb := effectiveBps_ge_ten args
    exact ⟨computeDelay_nonneg _ hb, computeDelay_le _ hb⟩
  · intro hgt
    have hb : effectiveBps [a] = atoi a := by
      show parseBps a = atoi a
      have hpb : parseBps a = if atoi a < 10 then 10 else atoi a := rfl
      rw [hpb, if_neg (by omega)]
    rw [hb]
    exact computeDelay_zero_of_gt _ hgt

/-- Witness for C10: default invocation for the bounds, rate argument
"2000000" for the zero delay. -/
theorem C10_delay_bounds_witness :
    (0 ≤ computeDelay (effectiveBps []) ∧ computeDelay (effectiveBps []) ≤ 100000) ∧
      computeDelay (effectiveBps ["2000000"]) = 0 :=
  ⟨(C10_delay_bounds [] "2000000").1, (C10_delay_bounds [] "2000000").2 (by decide)⟩

end Slow
